import Mathlib

/-!
Verification of the `cobacoba.id` Flask application (`src/app.py`) and of the
realtime-room specification that accompanies it.

Python strings are modelled as `List Char` (sequences of code points).
Character classification (`str.isalnum`, `str.lower`, whitespace used by
`str.strip`) is modelled at ASCII fidelity via Lean's ASCII `Char` predicates,
which agree with Python on all ASCII inputs.
-/

namespace Cobacoba

/-- ASCII whitespace as stripped by Python's `str.strip()` (space, tab,
newline, carriage return, vertical tab, form feed and the four ASCII
separator controls 0x1c-0x1f; non-ASCII Unicode whitespace is outside the
model's scope). -/
def pySpace (c : Char) : Bool :=
  c = ' ' || c = '\t' || c = '\n' || c = '\r' || c = '\x0b' || c = '\x0c'
  || c = '\x1c' || c = '\x1d' || c = '\x1e' || c = '\x1f'

/-- Drop leading whitespace (model of the left half of `str.strip()`). -/
def dropLeadingWs (s : List Char) : List Char := s.dropWhile pySpace

/-- Drop trailing whitespace (model of the right half of `str.strip()`). -/
def dropTrailingWs (s : List Char) : List Char := (s.reverse.dropWhile pySpace).reverse

/-- Model of Python `str.strip()`: remove surrounding whitespace. -/
def pyStrip (s : List Char) : List Char := dropTrailingWs (dropLeadingWs s)

/-- The apostrophe character. -/
def squote : Char := Char.ofNat 39

/-- The character filter used by `sanitize_name` (src/app.py line 128):
alphanumeric or one of space, hyphen, underscore, apostrophe. -/
def allowedNameChar (c : Char) : Bool :=
  c.isAlphanum || c = ' ' || c = '-' || c = '_' || c = squote

/-- Model of `sanitize_name` (src/app.py lines 123-131). -/
def sanitize_name (raw_name : List Char) : List Char :=
  if raw_name = [] then []
  else
    let cleaned := (pyStrip raw_name).filter allowedNameChar
    if cleaned = [] then "Player".data else cleaned.take 20

/-! Room configuration constants (src/app.py lines 12-15). -/

def MAX_PLAYERS : Nat := 10
def MAP_WIDTH : Int := 900
def MAP_HEIGHT : Int := 600
def PLAYER_RADIUS : Int := 14

/-! ### Basic lemmas about the whitespace-stripping model -/

theorem dropWhile_append_of_all {p : Char → Bool} {w : List Char}
    (hw : ∀ c ∈ w, p c = true) (x : List Char) :
    (w ++ x).dropWhile p = x.dropWhile p := by
  induction w with
  | nil => simp
  | cons c cs ih =>
    have hc : p c = true := hw c (List.mem_cons_self c cs)
    simp only [List.cons_append, List.dropWhile_cons, hc, if_true]
    exact ih (fun d hd => hw d (List.mem_cons_of_mem c hd))

theorem dropWhile_all_eq_nil {p : Char → Bool} {w : List Char}
    (hw : ∀ c ∈ w, p c = true) : w.dropWhile p = [] := by
  have := dropWhile_append_of_all hw ([] : List Char)
  simpa using this

theorem dropWhile_append_of_exists {p : Char → Bool} {x : List Char}
    (hx : ∃ c ∈ x, p c = false) (t : List Char) :
    (x ++ t).dropWhile p = x.dropWhile p ++ t := by
  induction x with
  | nil => simp at hx
  | cons c cs ih =>
    by_cases hc : p c = true
    · simp only [List.cons_append, List.dropWhile_cons, hc, if_true]
      apply ih
      rcases hx with ⟨d, hd, hdp⟩
      rcases List.mem_cons.mp hd with h | h
      · exfalso; rw [h] at hdp; rw [hc] at hdp; exact absurd hdp (by simp)
      · exact ⟨d, h, hdp⟩
    · have hc' : p c = false := Bool.eq_false_iff.mpr hc
      simp only [List.cons_append, List.dropWhile_cons, hc']
      simp

theorem pyStrip_pad {w1 w2 raw : List Char}
    (h1 : ∀ c ∈ w1, pySpace c = true) (h2 : ∀ c ∈ w2, pySpace c = true) :
    pyStrip (w1 ++ raw ++ w2) = pyStrip raw := by
  unfold pyStrip dropTrailingWs dropLeadingWs
  by_cases hall : ∀ c ∈ raw, pySpace c = true
  · have hmid : ∀ c ∈ raw ++ w2, pySpace c = true := by
      intro c hc
      rcases List.mem_append.mp hc with h | h
      · exact hall c h
      · exact h2 c h
    rw [List.append_assoc, dropWhile_append_of_all h1 (raw ++ w2),
      dropWhile_all_eq_nil hmid, dropWhile_all_eq_nil hall]
  · push_neg at hall
    rcases hall with ⟨c, hc, hcp⟩
    have hcp' : pySpace c = false := Bool.eq_false_iff.mpr hcp
    have hex : ∃ c ∈ raw, pySpace c = false := ⟨c, hc, hcp'⟩
    rw [List.append_assoc, dropWhile_append_of_all h1 (raw ++ w2),
      dropWhile_append_of_exists hex w2]
    have hrev : (raw.dropWhile pySpace ++ w2).reverse
        = w2.reverse ++ (raw.dropWhile pySpace).reverse := by
      simp [List.reverse_append]
    rw [hrev, dropWhile_append_of_all (by
      intro d hd
      exact h2 d (List.mem_reverse.mp hd))]

theorem pyStrip_nil : pyStrip [] = [] := rfl

/-! ### Claims about `sanitize_name` -/

/-- C1 counterexample: on the empty string the sanitized result is empty, yet
`sanitize_name` returns the empty string, not the placeholder `"Player"`
(src/app.py line 124-125 returns `""` before the placeholder logic runs). -/
theorem sanitize_name_empty_not_placeholder : sanitize_name [] ≠ "Player".data := by
  decide

/-- C1 (amended): for every NON-empty input whose cleaned result is empty
(e.g. whitespace-only strings), `sanitize_name` returns the placeholder
`"Player"`, and on every non-empty input the result is non-empty; on the empty
string itself the function returns the empty string. -/
theorem sanitize_name_placeholder_of_ne_nil (raw : List Char) (hne : raw ≠ []) :
    ((pyStrip raw).filter allowedNameChar = [] → sanitize_name raw = "Player".data)
    ∧ sanitize_name raw ≠ [] := by
  unfold sanitize_name
  rw [if_neg hne]
  by_cases hc : (pyStrip raw).filter allowedNameChar = []
  · simp only [hc, if_true]
    exact ⟨fun _ => by decide, by decide⟩
  · simp only [hc, if_false]
    constructor
    · intro h; exact h.elim
    · rcases List.exists_cons_of_ne_nil hc with ⟨d, ds, hds⟩
      rw [hds]
      simp [List.take_cons]

/-- Witness for C1's amended theorem at the whitespace-only input `" "`. -/
theorem sanitize_name_placeholder_witness :
    sanitize_name [' '] = "Player".data ∧ sanitize_name [' '] ≠ [] := by
  have h := sanitize_name_placeholder_of_ne_nil [' '] (by decide)
  exact ⟨h.1 (by decide), h.2⟩

/-- C2: every character of `sanitize_name raw` is alphanumeric or one of space,
hyphen, underscore, apostrophe; the length is at most 20; and surrounding
whitespace of the input never affects the result (for non-empty inputs), i.e.
the result carries no leading/trailing whitespace of `raw`. -/
theorem sanitize_name_chars_bounded (raw : List Char) :
    (∀ c ∈ sanitize_name raw, allowedNameChar c = true)
    ∧ (sanitize_name raw).length ≤ 20
    ∧ ∀ w1 w2 : List Char, (∀ c ∈ w1, pySpace c = true) → (∀ c ∈ w2, pySpace c = true) →
        raw ≠ [] → sanitize_name (w1 ++ raw ++ w2) = sanitize_name raw := by
  refine ⟨?_, ?_, ?_⟩
  · intro c hc
    unfold sanitize_name at hc
    by_cases hne : raw = []
    · rw [if_pos hne] at hc; simp at hc
    · rw [if_neg hne] at hc
      by_cases hcl : (pyStrip raw).filter allowedNameChar = []
      · simp only [hcl, if_true] at hc
        revert hc; revert c; decide
      · simp only [hcl, if_false] at hc
        have hmem := List.take_subset 20 _ hc
        exact (List.mem_filter.mp hmem).2
  · unfold sanitize_name
    by_cases hne : raw = []
    · rw [if_pos hne]; simp
    · rw [if_neg hne]
      by_cases hcl : (pyStrip raw).filter allowedNameChar = []
      · simp only [hcl, if_true]; decide
      · simp only [hcl, if_false]
        rw [List.length_take]
        exact min_le_left _ _
  · intro w1 w2 h1 h2 hne
    have hpadne : w1 ++ raw ++ w2 ≠ [] := by
      intro h
      rcases List.append_eq_nil.mp h with ⟨h3, _⟩
      rcases List.append_eq_nil.mp h3 with ⟨_, h5⟩
      exact hne h5
    unfold sanitize_name
    rw [if_neg hne, if_neg hpadne, pyStrip_pad h1 h2]

/-- Witness for C2 at a concrete input with surrounding whitespace. -/
theorem sanitize_name_chars_bounded_witness :
    sanitize_name ([' '] ++ ['a', 'b'] ++ ['\t']) = sanitize_name ['a', 'b'] := by
  exact (sanitize_name_chars_bounded ['a', 'b']).2.2 [' '] ['\t']
    (by decide) (by decide) (by decide)

/-- C6: `sanitize_name` is deterministic (equal inputs yield equal outputs) and
total (it produces a result on every input string). -/
theorem sanitize_name_deterministic (raw1 raw2 : List Char) (h : raw1 = raw2) :
    sanitize_name raw1 = sanitize_name raw2 ∧ ∃ out, sanitize_name raw1 = out := by
  exact ⟨by rw [h], ⟨sanitize_name raw1, rfl⟩⟩

/-- Witness for C6 at a concrete input. -/
theorem sanitize_name_deterministic_witness :
    sanitize_name ['a'] = sanitize_name ['a'] ∧ ∃ out, sanitize_name ['a'] = out :=
  sanitize_name_deterministic ['a'] ['a'] rfl

/-- C7: the immutable room-configuration constants of src/app.py lines 12-15
equal the spec's values: width 900, height 600, radius 14, capacity 10. -/
theorem room_config_constants :
    MAP_WIDTH = 900 ∧ MAP_HEIGHT = 600 ∧ PLAYER_RADIUS = 14 ∧ MAX_PLAYERS = 10 :=
  ⟨rfl, rfl, rfl, rfl⟩

/-! ### The realtime-room core, modelled from the spec

The repository's realtime game-server module is not under `src/` (only its
constants, lines 12-15, and its name sanitizer are); the Bounds Policy, the
chat handler and the Session Registry below are modelled from the spec. -/

/-- Modelled from the spec: the Bounds Policy of §4.1, missing from src/:
`clamp(x, y, radius, width, height) -> (x', y')`, each axis independently
clamped to `[radius, dimension - radius]`, no side effects. -/
def clamp (x y radius width height : Int) : Int × Int :=
  (max radius (min (width - radius) x), max radius (min (height - radius) y))

/-- C3: whenever the play area is at least two radii wide and tall (true of the
room configuration), the clamp maps every integer pair into
`[radius, width - radius] × [radius, height - radius]`, and each axis is
clamped independently of the other. -/
theorem clamp_in_bounds (x y radius width height : Int)
    (hw : radius ≤ width - radius) (hh : radius ≤ height - radius) :
    (radius ≤ (clamp x y radius width height).1
      ∧ (clamp x y radius width height).1 ≤ width - radius)
    ∧ (radius ≤ (clamp x y radius width height).2
      ∧ (clamp x y radius width height).2 ≤ height - radius)
    ∧ (∀ v : Int, (clamp x v radius width height).1 = (clamp x y radius width height).1)
    ∧ (∀ u : Int, (clamp u y radius width height).2 = (clamp x y radius width height).2) := by
  unfold clamp
  exact ⟨⟨le_max_left _ _, max_le hw (min_le_left _ _)⟩,
    ⟨le_max_left _ _, max_le hh (min_le_left _ _)⟩,
    fun _ => rfl, fun _ => rfl⟩

/-- Witness for C3 at a far-out-of-bounds input in the actual room. -/
theorem clamp_in_bounds_witness :
    (14 ≤ (clamp (-5000) 7000 PLAYER_RADIUS MAP_WIDTH MAP_HEIGHT).1
      ∧ (clamp (-5000) 7000 PLAYER_RADIUS MAP_WIDTH MAP_HEIGHT).1 ≤ 900 - 14)
    ∧ (14 ≤ (clamp (-5000) 7000 PLAYER_RADIUS MAP_WIDTH MAP_HEIGHT).2
      ∧ (clamp (-5000) 7000 PLAYER_RADIUS MAP_WIDTH MAP_HEIGHT).2 ≤ 600 - 14) := by
  have h := clamp_in_bounds (-5000) 7000 PLAYER_RADIUS MAP_WIDTH MAP_HEIGHT
    (by decide) (by decide)
  exact ⟨h.1, h.2.1⟩

/-- Modelled from the spec: the `chat` branch of the Event Router (§4.5),
missing from src/: trim the text, drop the message if empty after trimming,
otherwise truncate to 300 characters; the result is the broadcast text
(`none` = dropped, no broadcast). -/
def handle_chat (text : List Char) : Option (List Char) :=
  let trimmed := pyStrip text
  if trimmed = [] then none else some (trimmed.take 300)

/-- C5: chat text that is empty or whitespace-only after trimming is dropped;
any other chat text is broadcast (never rejected) as its trimmed form truncated
to at most 300 characters, and text longer than 300 characters is cut to
exactly its first 300 characters. -/
theorem chat_truncate_or_drop (text : List Char) :
    (pyStrip text = [] → handle_chat text = none)
    ∧ (pyStrip text ≠ [] →
        handle_chat text = some ((pyStrip text).take 300)
        ∧ ((pyStrip text).take 300).length ≤ 300
        ∧ (300 < (pyStrip text).length → ((pyStrip text).take 300).length = 300)) := by
  unfold handle_chat
  constructor
  · intro h; simp [h]
  · intro h
    rw [if_neg h]
    refine ⟨rfl, ?_, ?_⟩
    · rw [List.length_take]; exact min_le_left _ _
    · intro hl; rw [List.length_take]; omega

set_option maxRecDepth 8000 in
/-- Witness for C5 at a 400-character message: exactly the first 300
characters are broadcast. -/
theorem chat_truncate_witness :
    handle_chat (List.replicate 400 'a') = some (List.replicate 300 'a')
    ∧ (List.replicate 300 'a').length = 300 := by
  have h := (chat_truncate_or_drop (List.replicate 400 'a')).2 (by decide)
  refine ⟨?_, by simp⟩
  rw [h.1]
  decide

/-- Modelled from the spec: a Participant (§3 data model). -/
structure Participant where
  displayName : List Char
  x : Int
  y : Int
  color : List Char
  avatarRef : Nat
deriving DecidableEq

/-- The Session Registry: mapping from connection identity to Participant. -/
abbrev Registry := List (Nat × Participant)

inductive AdmitResult where
  | accepted
  | serverFull
deriving DecidableEq

/-- Modelled from the spec: admission (§4.4), missing from src/: atomically
check `hasCapacity()` (size < capacity); if at capacity, reject with
`server_full` and create no Registry entry; otherwise insert the Participant. -/
def admitConn (reg : Registry) (id : Nat) (p : Participant) : AdmitResult × Registry :=
  if reg.length < MAX_PLAYERS then (.accepted, (id, p) :: reg) else (.serverFull, reg)

/-- Modelled from the spec: removal at disconnect (§4.4), idempotent
(removing an absent key is a no-op). -/
def removeParticipant (reg : Registry) (id : Nat) : Registry :=
  reg.filter (fun e => e.1 != id)

/-- Modelled from the spec: the `move` branch of the Event Router (§4.5):
add the delta to the sender's position and pass it through the Bounds Policy. -/
def updatePosition (reg : Registry) (id : Nat) (dx dy : Int) : Registry :=
  reg.map (fun e =>
    if e.1 = id then
      let q := clamp (e.2.x + dx) (e.2.y + dy) PLAYER_RADIUS MAP_WIDTH MAP_HEIGHT
      (e.1, { e.2 with x := q.1, y := q.2 })
    else e)

/-- Registry states reachable from the empty room by admissions,
disconnections and movement updates. -/
inductive Reachable : Registry → Prop where
  | init : Reachable []
  | admit_step (reg : Registry) (id : Nat) (p : Participant) :
      Reachable reg → Reachable (admitConn reg id p).2
  | remove_step (reg : Registry) (id : Nat) :
      Reachable reg → Reachable (removeParticipant reg id)
  | move_step (reg : Registry) (id : Nat) (dx dy : Int) :
      Reachable reg → Reachable (updatePosition reg id dx dy)

theorem reachable_length_le (reg : Registry) (h : Reachable reg) :
    reg.length ≤ MAX_PLAYERS := by
  induction h with
  | init => simp [MAX_PLAYERS]
  | admit_step reg' id p hr ih =>
    by_cases hl : reg'.length < MAX_PLAYERS
    · simp only [admitConn, hl, if_true, List.length_cons]
      omega
    · simpa only [admitConn, hl, if_false] using ih
  | remove_step reg' id hr ih =>
    exact le_trans (List.length_filter_le _ _) ih
  | move_step reg' id dx dy hr ih =>
    simpa only [updatePosition, List.length_map] using ih

/-- C4: the Session Registry never exceeds the capacity of 10 in any reachable
state, and admitting a further connection while 10 are active yields a
`server_full` rejection, leaves the Registry unchanged (no entry is created)
and keeps its size at 10. -/
theorem registry_capacity (reg : Registry) (h : Reachable reg) :
    reg.length ≤ MAX_PLAYERS
    ∧ (reg.length = MAX_PLAYERS → ∀ id p,
        (admitConn reg id p).1 = .serverFull ∧ (admitConn reg id p).2 = reg
        ∧ (admitConn reg id p).2.length = MAX_PLAYERS) := by
  refine ⟨reachable_length_le reg h, ?_⟩
  intro hfull id p
  have hnot : ¬ reg.length < MAX_PLAYERS := by omega
  refine ⟨?_, ?_, ?_⟩ <;> simp [admitConn, hnot, hfull]

/-- A placeholder participant used to exercise the admission model. -/
def pZero : Participant := ⟨"P".data, 14, 14, "#e6194B".data, 1⟩

/-- A registry built by ten successive admissions into the empty room. -/
def regTen : Registry :=
  (admitConn (admitConn (admitConn (admitConn (admitConn (admitConn (admitConn (admitConn (admitConn (admitConn
    [] 1 pZero).2 2 pZero).2 3 pZero).2 4 pZero).2 5 pZero).2
    6 pZero).2 7 pZero).2 8 pZero).2 9 pZero).2 10 pZero).2

theorem regTen_reachable : Reachable regTen :=
  .admit_step _ 10 pZero (.admit_step _ 9 pZero (.admit_step _ 8 pZero
    (.admit_step _ 7 pZero (.admit_step _ 6 pZero (.admit_step _ 5 pZero
    (.admit_step _ 4 pZero (.admit_step _ 3 pZero (.admit_step _ 2 pZero
    (.admit_step _ 1 pZero .init)))))))))

/-- Witness for C4: after ten admissions the room is full; an 11th admission
is rejected with `server_full` and the Registry keeps exactly 10 entries. -/
theorem registry_capacity_witness :
    regTen.length = MAX_PLAYERS
    ∧ (admitConn regTen 11 pZero).1 = .serverFull
    ∧ (admitConn regTen 11 pZero).2 = regTen
    ∧ (admitConn regTen 11 pZero).2.length = MAX_PLAYERS := by
  have hlen : regTen.length = MAX_PLAYERS := by decide
  have h := (registry_capacity regTen regTen_reachable).2 hlen 11 pZero
  exact ⟨hlen, h.1, h.2.1, h.2.2⟩

/-! ### ASCII facts about `Char.toLower` (the model of `str.lower()`) -/

theorem charOfNat_toNat (n : Nat) (h : n.isValidChar) : (Char.ofNat n).toNat = n := by
  rw [Char.ofNat, dif_pos h]
  rfl

theorem toLower_lower_of_upper (c : Char) (h : c.toNat ≥ 65 ∧ c.toNat ≤ 90) :
    (Char.toLower c).isLower = true ∧ (Char.toLower c).isUpper = false := by
  have hv : (c.toNat + 32).isValidChar := Or.inl (by omega)
  have hval : (Char.ofNat (c.toNat + 32)).val.toBitVec.toNat = c.toNat + 32 :=
    charOfNat_toNat _ hv
  have h97 : (97 : UInt32).toBitVec.toNat = 97 := rfl
  have h122 : (122 : UInt32).toBitVec.toNat = 122 := rfl
  unfold Char.toLower
  rw [if_pos h]
  constructor
  · unfold Char.isLower
    simp only [Bool.and_eq_true, decide_eq_true_eq, ge_iff_le, UInt32.le_def, BitVec.le_def]
    exact ⟨by omega, by omega⟩
  · unfold Char.isUpper
    apply Bool.and_eq_false_iff.mpr
    right
    rw [decide_eq_false_iff_not]
    intro hcon
    rw [UInt32.le_def, BitVec.le_def] at hcon
    have h90 : (90 : UInt32).toBitVec.toNat = 90 := rfl
    omega

theorem toLower_not_upper (c : Char) : (Char.toLower c).isUpper = false := by
  by_cases h : c.toNat ≥ 65 ∧ c.toNat ≤ 90
  · exact (toLower_lower_of_upper c h).2
  · unfold Char.toLower
    rw [if_neg h]
    unfold Char.isUpper
    apply Bool.and_eq_false_iff.mpr
    by_cases h65 : c.toNat ≥ 65
    · right
      rw [decide_eq_false_iff_not]
      intro hcon
      rw [UInt32.le_def, BitVec.le_def] at hcon
      have h90 : (90 : UInt32).toBitVec.toNat = 90 := rfl
      have hc : c.val.toBitVec.toNat = c.toNat := rfl
      exact h ⟨h65, by omega⟩
    · left
      rw [decide_eq_false_iff_not]
      intro hcon
      rw [ge_iff_le, UInt32.le_def, BitVec.le_def] at hcon
      have h65' : (65 : UInt32).toBitVec.toNat = 65 := rfl
      have hc : c.val.toBitVec.toNat = c.toNat := rfl
      omega

/-! ### `slugify_name` (src/app.py lines 181-202) -/

/-- Per-character action of the first loop of `slugify_name` (lines 184-189):
keep alphanumeric characters, turn space/hyphen/underscore/dot into a hyphen,
drop everything else. -/
def slugChar (ch : Char) : Option Char :=
  if ch.isAlphanum then some ch
  else if ch = ' ' || ch = '-' || ch = '_' || ch = '.' then some '-'
  else none

/-- The dash-collapsing loop of `slugify_name` (lines 191-200): `prevDash`
is the loop's `prev_dash` flag. -/
def collapseDashes : List Char → Bool → List Char
  | [], _ => []
  | c :: rest, prevDash =>
    if c = '-' then
      if prevDash then collapseDashes rest true
      else '-' :: collapseDashes rest true
    else c :: collapseDashes rest false

/-- Right half of Python `str.strip("-")`. -/
def dropTrailingDash (s : List Char) : List Char :=
  (s.reverse.dropWhile (fun c => c = '-')).reverse

/-- Model of Python `str.strip("-")`: remove surrounding hyphens. -/
def stripDash (s : List Char) : List Char :=
  dropTrailingDash (s.dropWhile (fun c => c = '-'))

/-- Model of `slugify_name` (src/app.py lines 181-202). -/
def slugify_name (name : List Char) : List Char :=
  let base := ((pyStrip name).map Char.toLower).filterMap slugChar
  let slug := collapseDashes base false
  let slug_str := stripDash slug
  (if slug_str = [] then "link".data else slug_str).take 40

/-- `true` iff the list has no two adjacent hyphens. -/
def noDoubleDash : List Char → Bool
  | c1 :: c2 :: rest => !(c1 = '-' && c2 = '-') && noDoubleDash (c2 :: rest)
  | _ => true


theorem band_true_iff {a b : Bool} : (a && b) = true ↔ a = true ∧ b = true := by
  constructor
  · intro h
    exact ⟨by revert h; cases a <;> cases b <;> simp, by revert h; cases a <;> cases b <;> simp⟩
  · intro ⟨h1, h2⟩
    rw [h1, h2]
    rfl

theorem bor_true_iff {a b : Bool} : (a || b) = true ↔ a = true ∨ b = true := by
  cases a <;> cases b <;> simp

theorem noDoubleDash_tail {a : Char} {l : List Char}
    (h : noDoubleDash (a :: l) = true) : noDoubleDash l = true := by
  cases l with
  | nil => rfl
  | cons b rest =>
    unfold noDoubleDash at h
    exact (band_true_iff.mp h).2

theorem noDoubleDash_append_right {u v : List Char}
    (h : noDoubleDash (u ++ v) = true) : noDoubleDash v = true := by
  induction u with
  | nil => exact h
  | cons a u' ih => exact ih (noDoubleDash_tail h)

theorem noDoubleDash_append_left {u v : List Char}
    (h : noDoubleDash (u ++ v) = true) : noDoubleDash u = true := by
  induction u with
  | nil => rfl
  | cons a u' ih =>
    cases u' with
    | nil => rfl
    | cons b rest =>
      unfold noDoubleDash at h ⊢
      rcases band_true_iff.mp h with ⟨h1, h2⟩
      exact band_true_iff.mpr ⟨h1, ih h2⟩

theorem noDoubleDash_cons {a : Char} {l : List Char}
    (hhead : ¬(a = '-' ∧ l.head? = some '-')) (hl : noDoubleDash l = true) :
    noDoubleDash (a :: l) = true := by
  cases l with
  | nil => rfl
  | cons b rest =>
    unfold noDoubleDash
    refine band_true_iff.mpr ⟨?_, hl⟩
    by_cases ha : a = '-'
    · by_cases hb : b = '-'
      · exact absurd ⟨ha, by rw [hb]; rfl⟩ hhead
      · simp [ha, hb]
    · simp [ha]

theorem collapseDashes_true_head (s : List Char) :
    (collapseDashes s true).head? ≠ some '-' := by
  induction s with
  | nil => simp [collapseDashes]
  | cons c rest ih =>
    unfold collapseDashes
    by_cases hc : c = '-'
    · simpa [hc] using ih
    · simp [hc]

theorem collapseDashes_noDoubleDash (s : List Char) :
    ∀ b, noDoubleDash (collapseDashes s b) = true := by
  induction s with
  | nil => intro b; rfl
  | cons c rest ih =>
    intro b
    unfold collapseDashes
    by_cases hc : c = '-'
    · simp only [hc, if_true]
      by_cases hb : b
      · simp only [hb, if_true]; exact ih true
      · simp only [hb, if_false]
        refine noDoubleDash_cons ?_ (ih true)
        rintro ⟨_, hhd⟩
        exact collapseDashes_true_head rest hhd
    · simp only [hc, if_false]
      refine noDoubleDash_cons ?_ (ih false)
      rintro ⟨ha, _⟩
      exact hc ha

theorem collapseDashes_subset (s : List Char) :
    ∀ b c, c ∈ collapseDashes s b → c ∈ s ∨ c = '-' := by
  induction s with
  | nil => intro b c hc; simp [collapseDashes] at hc
  | cons a rest ih =>
    intro b c hc
    unfold collapseDashes at hc
    by_cases ha : a = '-'
    · rw [if_pos ha] at hc
      cases b with
      | true =>
        rw [if_pos rfl] at hc
        rcases ih true c hc with h | h
        · exact Or.inl (List.mem_cons_of_mem a h)
        · exact Or.inr h
      | false =>
        rw [if_neg (by simp)] at hc
        rcases List.mem_cons.mp hc with h | h
        · exact Or.inr h
        · rcases ih true c h with h' | h'
          · exact Or.inl (List.mem_cons_of_mem a h')
          · exact Or.inr h'
    · rw [if_neg ha] at hc
      rcases List.mem_cons.mp hc with h | h
      · exact Or.inl (by rw [h]; exact List.mem_cons_self a rest)
      · rcases ih false c h with h' | h'
        · exact Or.inl (List.mem_cons_of_mem a h')
        · exact Or.inr h'

theorem exists_append_dropWhile (p : Char → Bool) (l : List Char) :
    ∃ u, u ++ l.dropWhile p = l := by
  induction l with
  | nil => exact ⟨[], rfl⟩
  | cons a rest ih =>
    by_cases ha : p a = true
    · rcases ih with ⟨u, hu⟩
      exact ⟨a :: u, by simp [List.dropWhile_cons, ha, hu]⟩
    · exact ⟨[], by simp [List.dropWhile_cons, Bool.eq_false_iff.mpr ha]⟩

theorem exists_dropTrailingDash_append (s : List Char) :
    ∃ t, dropTrailingDash s ++ t = s := by
  rcases exists_append_dropWhile (fun c => c = '-') s.reverse with ⟨u, hu⟩
  refine ⟨u.reverse, ?_⟩
  unfold dropTrailingDash
  have := congrArg List.reverse hu
  rw [List.reverse_append] at this
  simpa using this

theorem dropWhile_head_not {p : Char → Bool} {l : List Char} :
    ∀ c, (l.dropWhile p).head? = some c → p c = false := by
  induction l with
  | nil => intro c hc; simp at hc
  | cons a rest ih =>
    intro c hc
    by_cases ha : p a = true
    · rw [List.dropWhile_cons, if_pos ha] at hc
      exact ih c hc
    · rw [List.dropWhile_cons, if_neg ha] at hc
      simp only [List.head?_cons, Option.some.injEq] at hc
      rw [← hc]
      exact Bool.eq_false_iff.mpr ha

theorem head_of_append_ne_nil {x t : List Char} (hx : x ≠ []) :
    (x ++ t).head? = x.head? := by
  cases x with
  | nil => exact absurd rfl hx
  | cons a rest => rfl

theorem stripDash_head (s : List Char) : (stripDash s).head? ≠ some '-' := by
  unfold stripDash
  rcases exists_dropTrailingDash_append (s.dropWhile (fun c => decide (c = '-'))) with ⟨t, ht⟩
  intro hcon
  by_cases hnil : dropTrailingDash (s.dropWhile (fun c => decide (c = '-'))) = []
  · rw [hnil] at hcon; simp at hcon
  · have hh := head_of_append_ne_nil (t := t) hnil
    rw [ht] at hh
    have hhd : (s.dropWhile (fun c => decide (c = '-'))).head? = some '-' := by
      rw [hh]; exact hcon
    have := dropWhile_head_not '-' hhd
    simp at this

theorem stripDash_subset (s : List Char) : ∀ c ∈ stripDash s, c ∈ s := by
  intro c hc
  unfold stripDash at hc
  rcases exists_dropTrailingDash_append (s.dropWhile (fun c => decide (c = '-'))) with ⟨t, ht⟩
  rcases exists_append_dropWhile (fun c => decide (c = '-')) s with ⟨u, hu⟩
  rw [← hu]
  refine List.mem_append.mpr (Or.inr ?_)
  rw [← ht]
  exact List.mem_append.mpr (Or.inl hc)

theorem stripDash_noDoubleDash (s : List Char) (h : noDoubleDash s = true) :
    noDoubleDash (stripDash s) = true := by
  unfold stripDash
  rcases exists_dropTrailingDash_append (s.dropWhile (fun c => decide (c = '-'))) with ⟨t, ht⟩
  rcases exists_append_dropWhile (fun c => decide (c = '-')) s with ⟨u, hu⟩
  have h1 : noDoubleDash (s.dropWhile (fun c => decide (c = '-'))) = true := by
    rw [← hu] at h
    exact noDoubleDash_append_right h
  rw [← ht] at h1
  exact noDoubleDash_append_left h1

theorem slugFinal_wellformed (s : List Char)
    (hClass : ∀ c ∈ s, c.isLower = true ∨ c.isDigit = true ∨ c = '-')
    (hHead : s.head? ≠ some '-') (hDD : noDoubleDash s = true) :
    ((if s = [] then "link".data else s).take 40) ≠ []
    ∧ ((if s = [] then "link".data else s).take 40).length ≤ 40
    ∧ (∀ c ∈ (if s = [] then "link".data else s).take 40,
        c.isLower = true ∨ c.isDigit = true ∨ c = '-')
    ∧ ((if s = [] then "link".data else s).take 40).head? ≠ some '-'
    ∧ noDoubleDash ((if s = [] then "link".data else s).take 40) = true := by
  by_cases hnil : s = []
  · rw [if_pos hnil]
    refine ⟨by decide, by decide, ?_, by decide, by decide⟩
    intro c hc
    revert hc; revert c; decide
  · rw [if_neg hnil]
    rcases List.exists_cons_of_ne_nil hnil with ⟨d, ds, hds⟩
    refine ⟨?_, ?_, ?_, ?_, ?_⟩
    · rw [hds]; simp [List.take_cons]
    · rw [List.length_take]; exact min_le_left _ _
    · intro c hc
      exact hClass c (List.take_subset 40 s hc)
    · rw [hds]
      rw [hds] at hHead
      simpa [List.take_cons] using hHead
    · have hsplit : s = s.take 40 ++ s.drop 40 := (List.take_append_drop 40 s).symm
      rw [hsplit] at hDD
      exact noDoubleDash_append_left hDD

/-- C8: for every input, `slugify_name` returns a non-empty string of at most
40 characters consisting only of lowercase letters, digits and hyphens, with
no leading hyphen and no two consecutive hyphens. -/
theorem slugify_name_wellformed (name : List Char) :
    slugify_name name ≠ []
    ∧ (slugify_name name).length ≤ 40
    ∧ (∀ c ∈ slugify_name name, c.isLower = true ∨ c.isDigit = true ∨ c = '-')
    ∧ (slugify_name name).head? ≠ some '-'
    ∧ noDoubleDash (slugify_name name) = true := by
  have hBaseClass : ∀ c ∈ ((pyStrip name).map Char.toLower).filterMap slugChar,
      c.isLower = true ∨ c.isDigit = true ∨ c = '-' := by
    intro c hc
    rcases List.mem_filterMap.mp hc with ⟨a, ha, hfa⟩
    rcases List.mem_map.mp ha with ⟨y, _, hy⟩
    unfold slugChar at hfa
    by_cases halnum : a.isAlphanum = true
    · rw [if_pos halnum] at hfa
      have hca : c = a := by injection hfa.symm
      have hup : a.isUpper = false := by rw [← hy]; exact toLower_not_upper y
      unfold Char.isAlphanum Char.isAlpha at halnum
      rcases bor_true_iff.mp halnum with h | h
      · rcases bor_true_iff.mp h with h' | h'
        · rw [h'] at hup; exact absurd hup (by simp)
        · exact Or.inl (by rw [hca]; exact h')
      · exact Or.inr (Or.inl (by rw [hca]; exact h))
    · rw [if_neg halnum] at hfa
      by_cases hdash : (a = ' ' || a = '-' || a = '_' || a = '.') = true
      · rw [if_pos hdash] at hfa
        have : c = '-' := by injection hfa.symm
        exact Or.inr (Or.inr this)
      · rw [if_neg hdash] at hfa
        exact absurd hfa (by simp)
  have hSlugClass : ∀ c ∈ collapseDashes (((pyStrip name).map Char.toLower).filterMap slugChar) false,
      c.isLower = true ∨ c.isDigit = true ∨ c = '-' := by
    intro c hc
    rcases collapseDashes_subset _ false c hc with h | h
    · exact hBaseClass c h
    · exact Or.inr (Or.inr h)
  have hClass : ∀ c ∈ stripDash (collapseDashes (((pyStrip name).map Char.toLower).filterMap slugChar) false),
      c.isLower = true ∨ c.isDigit = true ∨ c = '-' := by
    intro c hc
    exact hSlugClass c (stripDash_subset _ c hc)
  have hHead := stripDash_head (collapseDashes (((pyStrip name).map Char.toLower).filterMap slugChar) false)
  have hDD := stripDash_noDoubleDash
    (collapseDashes (((pyStrip name).map Char.toLower).filterMap slugChar) false)
    (collapseDashes_noDoubleDash _ false)
  exact slugFinal_wellformed _ hClass hHead hDD

/-- Witness for C8 at a concrete article title. -/
theorem slugify_name_wellformed_witness :
    slugify_name ("  My Article!!  ".data) ≠ []
    ∧ (slugify_name ("  My Article!!  ".data)).length ≤ 40
    ∧ (∀ c ∈ slugify_name ("  My Article!!  ".data),
        c.isLower = true ∨ c.isDigit = true ∨ c = '-')
    ∧ (slugify_name ("  My Article!!  ".data)).head? ≠ some '-'
    ∧ noDoubleDash (slugify_name ("  My Article!!  ".data)) = true :=
  slugify_name_wellformed ("  My Article!!  ".data)

/-! ### The unique-ID selection loop of `create_link` / `create_article`
(src/app.py lines 336-342 and 677-683) -/

/-- Model of `sanitize_id` (src/app.py lines 170-178): keep alphanumerics,
dash and underscore, truncate to 40, lowercase. -/
def sanitize_id (raw_id : List Char) : List Char :=
  if raw_id = [] then []
  else (((pyStrip raw_id).filter
    (fun c => c.isAlphanum || c = '-' || c = '_')).take 40).map Char.toLower

/-- Model of Python's decimal rendering `str(n)` of a natural number, as used
by the f-string `f"{base_id}-{suffix}"`. -/
def natToDec (n : Nat) : List Char :=
  if h : n < 10 then [Char.ofNat (48 + n)]
  else natToDec (n / 10) ++ [Char.ofNat (48 + n % 10)]
decreasing_by exact Nat.div_lt_self (by omega) (by omega)

/-- Model of Python `s.startswith(p)`. -/
def pyStartswith : List Char → List Char → Bool
  | _, [] => true
  | [], _ :: _ => false
  | c :: cs, p :: ps => c = p && pyStartswith cs ps

/-- `RESERVED_IDS` (src/app.py line 205). -/
def RESERVED_IDS : List (List Char) :=
  ["admin".data, "api".data, "game".data, "static".data, "schedule".data, []]

/-- The prefix `"users_"` guarded against at line 340. -/
def usersPre : List Char := "users_".data

/-- The `while` condition of the unique-ID loop (src/app.py line 340). -/
def idTaken (existing : List (List Char)) (cand : List Char) : Bool :=
  decide (cand ∈ existing) || decide (cand ∈ RESERVED_IDS) || pyStartswith cand usersPre

/-- The unique-ID `while` loop (src/app.py lines 339-342), with explicit fuel:
`none` means the loop has not finished within `fuel` iterations. -/
def pickIdAux (existing : List (List Char)) (base : List Char) :
    Nat → Nat → Option (List Char)
  | _, 0 => none
  | suffix, fuel + 1 =>
    let cand := base ++ '-' :: natToDec suffix
    if idTaken existing cand then pickIdAux existing base (suffix + 1) fuel
    else some cand

/-- The whole selection (lines 336-342): test the starting id first, then run
the suffixing loop from `suffix = 2`. -/
def pickId (existing : List (List Char)) (start : List Char) (fuel : Nat) :
    Option (List Char) :=
  if idTaken existing start then pickIdAux existing start 2 fuel else some start

theorem pyStartswith_nil (x : List Char) : pyStartswith x [] = true := by
  cases x <;> rfl

theorem pyStartswith_append {b u : List Char} (h : pyStartswith b u = true)
    (t : List Char) : pyStartswith (b ++ t) u = true := by
  induction u generalizing b with
  | nil => exact pyStartswith_nil _
  | cons p ps ih =>
    cases b with
    | nil => exact absurd h (by simp [pyStartswith])
    | cons c cs =>
      unfold pyStartswith at h ⊢
      rcases band_true_iff.mp h with ⟨h1, h2⟩
      exact band_true_iff.mpr ⟨h1, ih h2⟩

theorem pickIdAux_users_none (base : List Char)
    (hb : pyStartswith base usersPre = true) :
    ∀ fuel suffix, pickIdAux [] base suffix fuel = none := by
  intro fuel
  induction fuel with
  | zero => intro suffix; rfl
  | succ f ih =>
    intro suffix
    unfold pickIdAux
    have hcand : pyStartswith (base ++ '-' :: natToDec suffix) usersPre = true :=
      pyStartswith_append hb _
    rw [if_pos (by simp [idTaken, hcand])]
    exact ih (suffix + 1)

/-- C9: the unique-ID loop of `create_link`/`create_article` does NOT
terminate for every finite existing collection: the admin-supplied id
`"users_x"` survives `sanitize_id` unchanged, and with it as the base every
candidate `users_x-2`, `users_x-3`, ... still starts with `"users_"`, so the
`while` condition never becomes false — no amount of fuel makes the loop
return, even with no existing links at all. -/
theorem create_link_loop_diverges :
    sanitize_id ("users_x".data) = "users_x".data
    ∧ ∀ fuel, pickId [] ("users_x".data) fuel = none := by
  constructor
  · decide
  · intro fuel
    unfold pickId
    rw [if_pos (by decide)]
    exact pickIdAux_users_none _ (by decide) fuel 2

/-! ### `register_user` (src/app.py lines 237-291) -/

structure UserRec where
  id : Nat
  name : List Char
  whatsapp : List Char
  timestamp : List Char
deriving DecidableEq

structure RegOutcome where
  status : Nat
  saved : Bool
  users : List UserRec
deriving DecidableEq

/-- Model of `register_user` (src/app.py lines 237-291). `tstamp` abstracts
the request-derived timestamp value and `saveOk` the success of `save_users`;
the optional participant fields are omitted (they never affect control flow
or the stored identity fields checked here). `saved` records whether
`save_users` was invoked at all. -/
def register_user (users : List UserRec) (rawName rawWhatsapp tstamp : List Char)
    (saveOk : Bool) : RegOutcome :=
  let name := pyStrip rawName
  let whatsapp := pyStrip rawWhatsapp
  if name = [] ∨ whatsapp = [] then ⟨400, false, users⟩
  else if users.any (fun u =>
      decide (u.name.map Char.toLower = name.map Char.toLower)
      || decide (u.whatsapp = whatsapp)) then ⟨400, false, users⟩
  else if 20 ≤ users.length then ⟨400, false, users⟩
  else
    let newUser : UserRec := ⟨users.length + 1, name, whatsapp, tstamp⟩
    if saveOk then ⟨201, true, users ++ [newUser]⟩
    else ⟨500, true, users ++ [newUser]⟩

/-- C10: `register_user` is atomic on error: when the submitted name
(case-insensitively) or WhatsApp number duplicates a stored user, or 20 users
are already stored, it answers status 400, performs no save, and leaves the
stored users list unchanged. -/
theorem register_user_error_atomic (users : List UserRec)
    (rawName rawWhatsapp tstamp : List Char) (saveOk : Bool)
    (h : (∃ u ∈ users,
            u.name.map Char.toLower = (pyStrip rawName).map Char.toLower
            ∨ u.whatsapp = pyStrip rawWhatsapp)
        ∨ 20 ≤ users.length) :
    register_user users rawName rawWhatsapp tstamp saveOk = ⟨400, false, users⟩ := by
  unfold register_user
  by_cases h0 : pyStrip rawName = [] ∨ pyStrip rawWhatsapp = []
  · rw [if_pos h0]
  · rw [if_neg h0]
    by_cases hdup : users.any (fun u =>
        decide (u.name.map Char.toLower = (pyStrip rawName).map Char.toLower)
        || decide (u.whatsapp = pyStrip rawWhatsapp)) = true
    · rw [if_pos hdup]
    · rw [if_neg hdup]
      have hnodup : ¬ ∃ u ∈ users,
          u.name.map Char.toLower = (pyStrip rawName).map Char.toLower
          ∨ u.whatsapp = pyStrip rawWhatsapp := by
        rintro ⟨u, hu, hor⟩
        apply hdup
        refine List.any_eq_true.mpr ⟨u, hu, ?_⟩
        rcases hor with h1 | h1 <;> simp [h1]
      rcases h with h | h
      · exact absurd h hnodup
      · rw [if_pos h]

/-- Witness for C10: a duplicate (case-insensitive) name is rejected with 400
and the stored list survives unchanged. -/
theorem register_user_error_atomic_witness :
    register_user [⟨1, 'B' :: 'o' :: 'b' :: [], '0' :: '8' :: [], []⟩]
      (' ' :: 'b' :: 'o' :: 'B' :: ' ' :: []) ('0' :: '9' :: []) [] true
    = ⟨400, false, [⟨1, 'B' :: 'o' :: 'b' :: [], '0' :: '8' :: [], []⟩]⟩ := by
  exact register_user_error_atomic _ _ _ _ _ (Or.inl (by decide))

end Cobacoba
